import Mathlib

/-!
Verification of the `SchematicScene` interactive-scene logic of Caneda/Qucs
(`src/qucs/schematicscene.cpp`), against its natural-language specification.

The scene code is embedded shallowly: machine integers are `Int`
(C++ `%` on `int` is truncated remainder, `Int.tmod`; C++ `/` is `Int.tdiv`),
pointers are `Option`, Qt containers are `List`.  Members of classes whose
sources are not part of the repository snapshot (`Wire`, `Port`, `Component`,
the XML reader) are modelled from the specification text; each such
definition carries a doc comment saying so.
-/

namespace Caneda

/-- An integer scene point: models `QPoint`, the result of
`QPointF::toPoint()` used by `SchematicScene::nearingGridPoint`. -/
structure Pt where
  x : Int
  y : Int
deriving DecidableEq, Repr

instance : Neg Pt := ⟨fun p => ⟨-p.x, -p.y⟩⟩

theorem Pt.neg_def (p : Pt) : -p = ⟨-p.x, -p.y⟩ := rfl

/-- The pre-rounding shift of `SchematicScene::nearingGridPoint`
(`src/qucs/schematicscene.cpp:218`):

    if(x<0) { x -= (m_gridWidth / 2) - 1; } else { x += m_gridWidth / 2; }

C++ `/` on signed integers truncates toward zero, i.e. `Int.tdiv`. -/
def snapPre (grid x : Int) : Int :=
  if x < 0 then x - (grid.tdiv 2 - 1) else x + grid.tdiv 2

/-- One axis of `SchematicScene::nearingGridPoint`: the shift above followed
by `x -= x % m_gridWidth` (C++ `%` is the truncated remainder `Int.tmod`). -/
def snapAxis (grid x : Int) : Int :=
  snapPre grid x - (snapPre grid x).tmod grid

/-- `SchematicScene::nearingGridPoint` (`src/qucs/schematicscene.cpp:212`):
snaps each axis independently to the grid. -/
def nearingGridPoint (gw gh : Int) (p : Pt) : Pt :=
  ⟨snapAxis gw p.x, snapAxis gh p.y⟩

/-! ## Wire geometry

`Wire`, `Port` and the undo-command classes are declared outside the
snapshot (`wire.h`/`wire.cpp` are not under `src/`); the scene code only
calls into them.  They are therefore modelled from the specification
(spec §3 "Wire", §4.2 "Connectivity Model"). -/

/-- A wire segment (`WireLine`): an ordered start/end point pair. -/
structure WireLine where
  p1 : Pt
  p2 : Pt
deriving DecidableEq, Repr

instance : Inhabited WireLine := ⟨⟨⟨0, 0⟩, ⟨0, 0⟩⟩⟩

abbrev WireLines := List WireLine

/-- Cross product of `a - o` and `b - o` (orientation test). -/
def cross (o a b : Pt) : Int :=
  (a.x - o.x) * (b.y - o.y) - (a.y - o.y) * (b.x - o.x)

/-- Dot product of `a - o` and `b - o`. -/
def dotp (o a b : Pt) : Int :=
  (a.x - o.x) * (b.x - o.x) + (a.y - o.y) * (b.y - o.y)

/-- `p` lies on the closed segment from `a` to `b`. -/
def onSegment (p a b : Pt) : Bool :=
  decide (cross a b p = 0) && decide (dotp p a b ≤ 0)

/-- The closed segments `[a,b]` and `[c,d]` have a common point. -/
def segsIntersect (a b c d : Pt) : Bool :=
  let d1 := cross c d a
  let d2 := cross c d b
  let d3 := cross a b c
  let d4 := cross a b d
  ((decide (0 < d1) && decide (d2 < 0) || decide (d1 < 0) && decide (0 < d2)) &&
   (decide (0 < d3) && decide (d4 < 0) || decide (d3 < 0) && decide (0 < d4)))
  || onSegment a c d || onSegment b c d || onSegment c a b || onSegment d a b

/-- The closed segments `[a,b]` and `[c,d]` share more than a single point:
they are collinear and their parameter ranges along the common line overlap
in a nondegenerate interval. -/
def segsShareMoreThanPoint (a b c d : Pt) : Bool :=
  decide (cross a b c = 0) && decide (cross a b d = 0) &&
  (let tc := dotp a c b
   let td := dotp a d b
   decide (min (dotp a b b) (max tc td) > max 0 (min tc td)))

/-- Does the first segment conflict with any of the following ones?
The immediately following segment (`adj = true`) legitimately shares one
endpoint, so it only conflicts when the two share more than a point;
any contact with a later segment is a self-intersection. -/
def badWith (s : WireLine) : Bool → WireLines → Bool
  | _, [] => false
  | adj, t :: rest =>
    (if adj then segsShareMoreThanPoint s.p1 s.p2 t.p1 t.p2
     else segsIntersect s.p1 s.p2 t.p1 t.p2)
    || badWith s false rest

/-- Some pair of segments of the polyline conflicts. -/
def selfOverlapping : WireLines → Bool
  | [] => false
  | s :: rest => badWith s true rest || selfOverlapping rest

/-- Modelled from the spec: the `Wire` item.  A wire is an ordered sequence
of line segments together with a "stored state" snapshot of the segment
sequence (spec §3 "Wire").  `committed` records whether the wire has been
committed to the scene's undo log by an `AddWireCmd`; `port2Connected`
records whether the free endpoint's port (`port2`) currently has a
connection — the only port observation the wiring machine makes
(`port2()->hasConnection()`). -/
structure Wire where
  lines : WireLines
  stored : WireLines
  committed : Bool
  port2Connected : Bool
deriving DecidableEq, Repr

namespace Wire

/-- Position of `port1`: the first segment's start point. -/
def port1pos (w : Wire) : Pt :=
  match w.lines with
  | [] => ⟨0, 0⟩
  | l :: _ => l.p1

/-- Position of `port2`: the last segment's end point. -/
def port2pos (w : Wire) : Pt :=
  (w.lines.getLast?).elim ⟨0, 0⟩ (·.p2)

/-- Replace the end point of the last segment. -/
def setLastP2 : WireLines → Pt → WireLines
  | [], _ => []
  | [l], p => [⟨l.p1, p⟩]
  | l :: l' :: ls, p => l :: setLastP2 (l' :: ls) p

/-- Modelled from the spec: `Wire::movePort2` — during interactive drawing
the free endpoint follows the cursor (spec §4.5 "Any state + move"). -/
def movePort2 (p : Pt) (w : Wire) : Wire :=
  { w with lines := setLastP2 w.lines p }

/-- Modelled from the spec: `Wire::removeNullLines` prunes degenerate
(zero-length) segments (spec §3 "Wire"). -/
def removeNullLines (w : Wire) : Wire :=
  { w with lines := w.lines.filter fun l => decide (l.p1 ≠ l.p2) }

/-- Modelled from the spec: `Wire::storeState` snapshots the segment
sequence (spec §3 "Wire": "stored state"). -/
def storeState (w : Wire) : Wire :=
  { w with stored := w.lines }

/-- Modelled from the spec: `Wire::setState` restores a segment-sequence
snapshot. -/
def setState (s : WireLines) (w : Wire) : Wire :=
  { w with lines := s }

/-- Modelled from the spec: `Wire::overlap` — "true if wire's own segments
self-intersect or coincide in a way that makes the wire degenerate; used to
reject invalid in-progress wire clicks" (spec §4.2).  Zero-length segments
are the machine's own bookkeeping (they are pruned on commit), so the check
runs on the pruned polyline; a wire whose pruned polyline is empty is
degenerate. -/
def overlap (w : Wire) : Bool :=
  let ls := w.lines.filter fun l => decide (l.p1 ≠ l.p2)
  ls.isEmpty || selfOverlapping ls

end Wire

/-! ## Undo log

The scene's `QUndoStack` traffic is modelled as a journal of the calls the
scene code makes on it (`beginMacro` / `endMacro` / `push`), with one entry
constructor per undo-command class pushed by the embedded code. -/

inductive UndoEntry where
  | beginMacro (label : String)
  | endMacro
  | addWireCmd
  | wireStateChangeCmd (before after : WireLines)
  | connectCmd
  | disconnectCmd
  | moveCmd (before after : Rat × Rat)
  | mirrorItemsCmd
deriving DecidableEq, Repr

/-! ## The wiring sub-state-machine (`SchematicScene`, wiring action) -/

/-- `SchematicScene::WiringState` (NO_WIRE / SINGLETON_WIRE / COMPLEX_WIRE). -/
inductive WiringState where
  | NO_WIRE
  | SINGLETON_WIRE
  | COMPLEX_WIRE
deriving DecidableEq, Repr

/-- The slice of `SchematicScene` state the wiring machine touches:
the wiring state, `m_currentWiringWire`, the finalized wires remaining on
the scene, and the undo-log journal. -/
structure WiringM where
  wiringState : WiringState
  currentWire : Option Wire
  sceneWires : List Wire
  undoLog : List UndoEntry
deriving DecidableEq, Repr

/-- Port positions offered by the other items on the scene (model: the
endpoints of the finalized wires).  Spec §4.2: `connect` auto-connects
overlapping ports/wire endpoints. -/
def scenePortPositions (m : WiringM) : List Pt :=
  m.sceneWires.flatMap fun w => [w.port1pos, w.port2pos]

/-- Modelled from the spec: `Wire::checkAndConnect` (spec §4.2 `connect`) —
auto-connect the wire's free endpoint to an overlapping port of another
item; returns the updated wire and whether a new connection was recorded
(each successful connection is one undoable step). -/
def Wire.checkAndConnect (others : List Pt) (w : Wire) : Wire × Bool :=
  let hit := others.contains (w.port2pos)
  ({ w with port2Connected := w.port2Connected || hit },
   hit && !w.port2Connected)

/-- `SchematicScene::wiringEventMouseClickFinalize`
(`src/qucs/schematicscene.cpp:1268`): show the wire, re-anchor `port1`
(geometrically a no-op), prune null segments, and detach
`m_currentWiringWire`.  The wire object, a scene item since its
construction, stays on the scene. -/
def wiringEventMouseClickFinalize (m : WiringM) : WiringM :=
  match m.currentWire with
  | none => m
  | some w =>
    { m with
      currentWire := none
      sceneWires := m.sceneWires ++ [w.removeNullLines] }

/-- `SchematicScene::wiringEventLeftMouseClickAddSegment`
(`src/qucs/schematicscene.cpp:1284`): store the wire state, then append two
zero-length segments at the current end point. -/
def wiringEventLeftMouseClickAddSegment (m : WiringM) : WiringM :=
  match m.currentWire with
  | none => m
  | some w =>
    let w := w.storeState
    let q := w.port2pos
    { m with currentWire := some { w with lines := w.lines ++ [⟨q, q⟩, ⟨q, q⟩] } }

/-- `SchematicScene::wiringEventLeftMouseClickCommonComplexSingletonWire`
(`src/qucs/schematicscene.cpp:1298`): open the "Add wiring control point"
macro, prune null segments, push the given command (an `AddWireCmd` commits
the wire to the scene's undo log), run `checkAndConnect(PushUndoCmd)`, close
the macro. -/
def wiringEventCommon (entry : UndoEntry) (isAddWire : Bool) (m : WiringM) : WiringM :=
  match m.currentWire with
  | none => m
  | some w =>
    let log := m.undoLog ++ [.beginMacro "Add wiring control point"]
    let w := w.removeNullLines
    let w := if isAddWire then { w with committed := true } else w
    let log := log ++ [entry]
    let (w, made) := w.checkAndConnect (scenePortPositions m)
    let log := if made then log ++ [.connectCmd] else log
    { m with currentWire := some w, undoLog := log ++ [.endMacro] }

/-- `SchematicScene::wiringEventLeftMouseClick`
(`src/qucs/schematicscene.cpp:1321`). -/
def wiringEventLeftMouseClick (pos : Pt) (m : WiringM) : WiringM :=
  match m.wiringState with
  | .NO_WIRE =>
    -- new Wire(pos, pos, false, this)
    { m with
      currentWire := some ⟨[⟨pos, pos⟩], [⟨pos, pos⟩], false, false⟩
      wiringState := .SINGLETON_WIRE }
  | .SINGLETON_WIRE =>
    match m.currentWire with
    | none => m
    | some w =>
      if w.overlap then m
      else
        let m := wiringEventCommon .addWireCmd true m
        match m.currentWire with
        | none => m
        | some w' =>
          if w'.port2Connected then
            { wiringEventMouseClickFinalize m with wiringState := .NO_WIRE }
          else
            { wiringEventLeftMouseClickAddSegment m with wiringState := .COMPLEX_WIRE }
  | .COMPLEX_WIRE =>
    match m.currentWire with
    | none => m
    | some w =>
      if w.overlap then m
      else
        let m := wiringEventCommon (.wireStateChangeCmd w.stored w.lines) false m
        match m.currentWire with
        | none => m
        | some w' =>
          if w'.port2Connected then
            { wiringEventMouseClickFinalize m with wiringState := .NO_WIRE }
          else
            { wiringEventLeftMouseClickAddSegment m with wiringState := .COMPLEX_WIRE }

/-- `SchematicScene::wiringEventRightMouseClick`
(`src/qucs/schematicscene.cpp:1373`). -/
def wiringEventRightMouseClick (m : WiringM) : WiringM :=
  match m.wiringState with
  | .NO_WIRE => { m with wiringState := .NO_WIRE }
  | .SINGLETON_WIRE =>
    match m.currentWire with
    | none => m
    | some w =>
      if w.overlap then m
      else
        let m := wiringEventCommon .addWireCmd true m
        { wiringEventMouseClickFinalize m with wiringState := .NO_WIRE }
  | .COMPLEX_WIRE =>
    match m.currentWire with
    | none => m
    | some w =>
      if w.overlap then m
      else
        let m := wiringEventCommon (.wireStateChangeCmd w.stored w.lines) false m
        { wiringEventMouseClickFinalize m with wiringState := .NO_WIRE }

/-- `SchematicScene::wiringEventMouseMove`
(`src/qucs/schematicscene.cpp:1437`): while a wire is in progress its free
endpoint follows the (grid-snapped) cursor.  `mapFromScene` is the identity
in this embedding (wire coordinates are scene coordinates). -/
def wiringEventMouseMove (pos : Pt) (m : WiringM) : WiringM :=
  if m.wiringState ≠ .NO_WIRE then
    { m with currentWire := m.currentWire.map (Wire.movePort2 pos) }
  else m

/-- `SchematicScene::resetStateWiring` (`src/qucs/schematicscene.cpp:449`).
In `SINGLETON_WIRE` the uncommitted wire is deleted.  In `COMPLEX_WIRE` the
code shows the wire, restores its stored state, re-anchors `port1` — and
then `delete`s `m_currentWiringWire`, which destroys the wire object and
removes it (and every segment already committed into it) from the scene;
the net state effect is identical to the singleton case. -/
def resetStateWiring (m : WiringM) : WiringM :=
  match m.wiringState with
  | .NO_WIRE => { m with wiringState := .NO_WIRE }
  | .SINGLETON_WIRE => { m with currentWire := none, wiringState := .NO_WIRE }
  | .COMPLEX_WIRE => { m with currentWire := none, wiringState := .NO_WIRE }

/-- Initial wiring state: `NO_WIRE`, no current wire, empty scene. -/
def initWiring : WiringM := ⟨.NO_WIRE, none, [], []⟩

/-- One interactive left click at `p`: the cursor moves to `p` (mouse-move
events fire first), then the press is dispatched. -/
def leftStep (m : WiringM) (p : Pt) : WiringM :=
  wiringEventLeftMouseClick p (wiringEventMouseMove p m)

/-- One interactive right click at `p`. -/
def rightStep (m : WiringM) (p : Pt) : WiringM :=
  wiringEventRightMouseClick (wiringEventMouseMove p m)

/-- A full interactive wiring session: left clicks at `ps`, then a right
click at `q`. -/
def runWiring (ps : List Pt) (q : Pt) : WiringM :=
  rightStep (ps.foldl leftStep initWiring) q

/-- The overlap rejection does not fire for a click arriving in state `m`. -/
def clickAccepted (m : WiringM) : Bool :=
  match m.wiringState, m.currentWire with
  | .NO_WIRE, _ => true
  | _, some w => !w.overlap
  | _, none => false

/-- Every left click of the run is accepted (not rejected by the overlap
check). -/
def leftRunAccepted : WiringM → List Pt → Bool
  | _, [] => true
  | m, p :: ps =>
    let m' := wiringEventMouseMove p m
    clickAccepted m' && leftRunAccepted (wiringEventLeftMouseClick p m') ps

/-- Every click of the full session (left clicks at `ps`, right click at
`q`) is accepted. -/
def wiringRunAccepted (ps : List Pt) (q : Pt) : Bool :=
  leftRunAccepted initWiring ps &&
  clickAccepted (wiringEventMouseMove q (ps.foldl leftStep initWiring))

/-- Total number of wire segments of committed wires remaining on the
scene. -/
def sceneCommittedSegCount (m : WiringM) : Nat :=
  (m.sceneWires.filter (·.committed)).foldl (fun n w => n + w.lines.length) 0

/-- The committed two-click prefix of a wiring session: left clicks at
`(0,0)` and `(10,0)` put the machine in `COMPLEX_WIRE` with one committed
segment. -/
def demoComplex : WiringM := leftStep (leftStep initWiring ⟨0, 0⟩) ⟨10, 0⟩

/-- The polyline segments induced by successive click positions
`a, b₁, b₂, …`. -/
def mkSegs : Pt → List Pt → WireLines
  | _, [] => []
  | a, b :: rest => ⟨a, b⟩ :: mkSegs b rest

/-- End point of the last segment of a polyline. -/
def lastP2 (ls : WireLines) : Pt :=
  (ls.getLast?).elim ⟨0, 0⟩ (·.p2)

/-- The machine state right after the first left click at `p` on an empty
scene: a fresh zero-length wire, `SINGLETON_WIRE`. -/
def singState (p : Pt) : WiringM :=
  ⟨.SINGLETON_WIRE, some ⟨[⟨p, p⟩], [⟨p, p⟩], false, false⟩, [], []⟩

/-- Invariant of the wiring machine while drawing in `COMPLEX_WIRE` on an
otherwise empty scene: the current wire carries the committed polyline
`segs` followed by the two bookkeeping null segments at the last click
point `pk`; `segs` is its stored state; the wire is committed and its free
port unconnected; `segs` is a nonempty chain of nondegenerate segments
ending at `pk`. -/
def InvC (m : WiringM) (segs : WireLines) (pk : Pt) : Prop :=
  (∃ log, m = ⟨.COMPLEX_WIRE,
      some ⟨segs ++ [⟨pk, pk⟩, ⟨pk, pk⟩], segs, true, false⟩, [], log⟩) ∧
  segs ≠ [] ∧ (∀ l ∈ segs, l.p1 ≠ l.p2) ∧ lastP2 segs = pk

/-- A doubled-back in-progress wire: its second segment retraces part of the
first, so `Wire::overlap` holds. -/
def demoOverlapWire : Wire :=
  ⟨[⟨⟨0, 0⟩, ⟨10, 0⟩⟩, ⟨⟨10, 0⟩, ⟨5, 0⟩⟩], [⟨⟨0, 0⟩, ⟨10, 0⟩⟩], true, false⟩

/-- A `COMPLEX_WIRE` machine state holding the doubled-back wire. -/
def demoOverlapState : WiringM :=
  ⟨.COMPLEX_WIRE, some demoOverlapWire, [], []⟩

/-! ## Undo-macro nesting -/

/-- Accumulate the open-macro depth and the maximal depth reached while
replaying an undo journal. -/
def macroStep : Int × Int → UndoEntry → Int × Int
  | (c, b), .beginMacro _ => (c + 1, max b (c + 1))
  | (c, b), .endMacro => (c - 1, b)
  | (c, b), _ => (c, b)

/-- `(final open depth, maximal open depth)` of an undo journal. -/
def macroScan (log : List UndoEntry) : Int × Int :=
  log.foldl macroStep (0, 0)

/-- Maximal number of simultaneously open macros while the journal is
replayed. -/
def macroDepthMax (log : List UndoEntry) : Int := (macroScan log).2

/-- Number of macros left open after the journal. -/
def macroDepthNet (log : List UndoEntry) : Int := (macroScan log).1

/-! ## Scene items for the undo-macro and align/distribute operations -/

/-- An abstract selected scene item, exposing exactly what
`disconnectItems` / `connectItems` / `alignElements` /
`distributeElements*` observe: its position, its bounding-rect extent, a
wire/non-wire tag, for each of its ports whether `getAnyConnectedPort()`
finds a peer, and how many fresh connections `checkAndConnect` would make
(one undoable step each, spec §4.2). -/
structure SItem where
  x : Rat
  y : Rat
  w : Rat
  h : Rat
  isWire : Bool
  portConnected : List Bool
  newConnections : Nat
deriving DecidableEq, Repr

/-- Number of `DisconnectCmd` pushes `disconnectItems` issues: one per port
with a connected peer (`src/qucs/schematicscene.cpp:2258`). -/
def disconnectPushCount (items : List SItem) : Nat :=
  (items.map fun it => (it.portConnected.filter id).length).sum

/-- Number of connection pushes `connectItems` issues via
`checkAndConnect`. -/
def connectPushCount (items : List SItem) : Nat :=
  (items.map (·.newConnections)).sum

/-- Undo journal of `SchematicScene::disconnectItems`
(`src/qucs/schematicscene.cpp:2240`): with `PushUndoCmd` it opens its own
"Disconnect items" macro around the individual `DisconnectCmd` pushes;
without it nothing is recorded. -/
def disconnectItemsLog (items : List SItem) (pushUndo : Bool) : List UndoEntry :=
  if pushUndo then
    [.beginMacro "Disconnect items"]
      ++ List.replicate (disconnectPushCount items) .disconnectCmd
      ++ [.endMacro]
  else []

/-- Undo journal of `SchematicScene::connectItems`
(`src/qucs/schematicscene.cpp:2211`): its own "Connect items" macro around
the `checkAndConnect` pushes. -/
def connectItemsLog (items : List SItem) (pushUndo : Bool) : List UndoEntry :=
  if pushUndo then
    [.beginMacro "Connect items"]
      ++ List.replicate (connectPushCount items) .connectCmd
      ++ [.endMacro]
  else []

/-- The mirror axis argument of `SchematicScene::mirrorItems`. -/
inductive MirrorAxis where
  | X
  | Y
deriving DecidableEq, Repr

/-- Undo journal of `SchematicScene::mirrorItems`
(`src/qucs/schematicscene.cpp:1490`): with `PushUndoCmd` it opens a
"Mirror X"/"Mirror Y" macro, calls `disconnectItems(items, opt)`, pushes
the `MirrorItemsCmd`, calls `connectItems(items, opt)`, and closes the
macro. -/
def mirrorItemsLog (items : List SItem) (pushUndo : Bool) (axis : MirrorAxis) :
    List UndoEntry :=
  (if pushUndo then
    [.beginMacro (match axis with | .X => "Mirror X" | .Y => "Mirror Y")]
   else [])
  ++ disconnectItemsLog items pushUndo
  ++ (if pushUndo then [.mirrorItemsCmd] else [])
  ++ connectItemsLog items pushUndo
  ++ (if pushUndo then [.endMacro] else [])

/-! ## Align and distribute -/

/-- `Qt::Orientation` as used by `distributeElements`. -/
inductive Orientation where
  | horizontal
  | vertical
deriving DecidableEq, Repr

/-- The alignment flags accepted by `alignElements`. -/
inductive Alignment where
  | left
  | right
  | top
  | bottom
  | hcenter
  | vcenter
  | center
deriving DecidableEq, Repr

/-- Insert into a sorted list (used to model `qSort` with the
`pointCmpFunction_X`/`_Y` comparators; the scenario items are pairwise
distinct, for which every sort agrees). -/
def insertBy {α : Type} (le : α → α → Bool) (a : α) : List α → List α
  | [] => [a]
  | b :: l => if le a b then a :: b :: l else b :: insertBy le a l

/-- Insertion sort. -/
def sortBy {α : Type} (le : α → α → Bool) : List α → List α
  | [] => []
  | a :: l => insertBy le a (sortBy le l)

/-- The move loop of `distributeElementsHorizontally`
(`src/qucs/schematicscene.cpp:1719`): walk the sorted items; wires are
skipped (and do not consume a slot); every other item is moved to the
running abscissa `x`, which then advances by `dx`.  Returns the moved items
and the `MoveCmd` journal. -/
def distributeLoopX (dx : Rat) : List SItem → Rat → List SItem × List UndoEntry
  | [], _ => ([], [])
  | it :: rest, x =>
    if it.isWire then
      let (l, g) := distributeLoopX dx rest x
      (it :: l, g)
    else
      let (l, g) := distributeLoopX dx rest (x + dx)
      ({ it with x := x } :: l, .moveCmd (it.x, it.y) (x, it.y) :: g)

/-- The move loop of `distributeElementsVertically`
(`src/qucs/schematicscene.cpp:1767`). -/
def distributeLoopY (dy : Rat) : List SItem → Rat → List SItem × List UndoEntry
  | [], _ => ([], [])
  | it :: rest, y =>
    if it.isWire then
      let (l, g) := distributeLoopY dy rest y
      (it :: l, g)
    else
      let (l, g) := distributeLoopY dy rest (y + dy)
      ({ it with y := y } :: l, .moveCmd (it.x, it.y) (it.x, y) :: g)

/-- `SchematicScene::distributeElementsHorizontally`
(`src/qucs/schematicscene.cpp:1699`): macro, disconnect, sort by abscissa,
spread between the extremes in steps of `(x2-x1)/(n-1)`, reconnect, close
macro.  Returns the items (in sorted order, as the code processes them) and
the appended undo journal. -/
def distributeElementsHorizontally (items : List SItem) (log : List UndoEntry) :
    List SItem × List UndoEntry :=
  let sorted := sortBy (fun a b => decide (a.x ≤ b.x)) items
  let x1 := (sorted.head?).elim 0 (·.x)
  let x2 := (sorted.getLast?).elim 0 (·.x)
  let dx := (x2 - x1) / ((items.length : Rat) - 1)
  let (moved, moveLog) := distributeLoopX dx sorted x1
  (moved,
   log ++ [.beginMacro "Distribute horizontally"]
       ++ disconnectItemsLog items true
       ++ moveLog
       ++ connectItemsLog items true
       ++ [.endMacro])

/-- `SchematicScene::distributeElementsVertically`
(`src/qucs/schematicscene.cpp:1747`). -/
def distributeElementsVertically (items : List SItem) (log : List UndoEntry) :
    List SItem × List UndoEntry :=
  let sorted := sortBy (fun a b => decide (a.y ≤ b.y)) items
  let y1 := (sorted.head?).elim 0 (·.y)
  let y2 := (sorted.getLast?).elim 0 (·.y)
  let dy := (y2 - y1) / ((items.length : Rat) - 1)
  let (moved, moveLog) := distributeLoopY dy sorted y1
  (moved,
   log ++ [.beginMacro "Distribute vertically"]
       ++ disconnectItemsLog items true
       ++ moveLog
       ++ connectItemsLog items true
       ++ [.endMacro])

/-- `SchematicScene::distributeElements` (`src/qucs/schematicscene.cpp:1797`):
fewer than two selected items — return `false` having touched nothing;
otherwise distribute along the requested orientation and return `true`.
Result: `(success, items, undo journal)`. -/
def distributeElements (o : Orientation) (items : List SItem)
    (log : List UndoEntry) : Bool × List SItem × List UndoEntry :=
  if items.length < 2 then (false, items, log)
  else
    match o with
    | .horizontal =>
      let (l, g) := distributeElementsHorizontally items log
      (true, l, g)
    | .vertical =>
      let (l, g) := distributeElementsVertically items log
      (true, l, g)

/-- Scene bounding rectangle `(left, top, right, bottom)` of an item. -/
def SItem.rect (it : SItem) : Rat × Rat × Rat × Rat :=
  (it.x, it.y, it.x + it.w, it.y + it.h)

/-- Union of the items' bounding rectangles
(`src/qucs/schematicscene.cpp:1896`). -/
def unionRect : List SItem → Rat × Rat × Rat × Rat
  | [] => (0, 0, 0, 0)
  | it :: rest =>
    rest.foldl
      (fun (r : Rat × Rat × Rat × Rat) it' =>
        let (l, t, rr, b) := r
        let (l', t', rr', b') := it'.rect
        (min l l', min t t', max rr rr', max b b'))
      it.rect

/-- Per-item displacement of `alignElements`'s switch
(`src/qucs/schematicscene.cpp:1913`). -/
def alignDelta (al : Alignment) (rect itemRect : Rat × Rat × Rat × Rat) :
    Rat × Rat :=
  let (l, t, r, b) := rect
  let (il, it', ir, ib) := itemRect
  match al with
  | .left => (l - il, 0)
  | .right => (r - ir, 0)
  | .top => (0, t - it')
  | .bottom => (0, b - ib)
  | .hcenter => ((l + r) / 2 - (il + ir) / 2, 0)
  | .vcenter => (0, (t + b) / 2 - (it' + ib) / 2)
  | .center => ((l + r) / 2 - (il + ir) / 2, (t + b) / 2 - (it' + ib) / 2)

/-- The move loop of `alignElements` (`src/qucs/schematicscene.cpp:1903`):
wires are skipped, every other item is moved by its alignment delta. -/
def alignLoop (al : Alignment) (rect : Rat × Rat × Rat × Rat) :
    List SItem → List SItem × List UndoEntry
  | [] => ([], [])
  | it :: rest =>
    if it.isWire then
      let (l, g) := alignLoop al rect rest
      (it :: l, g)
    else
      let (dx, dy) := alignDelta al rect it.rect
      let (l, g) := alignLoop al rect rest
      ({ it with x := it.x + dx, y := it.y + dy } :: l,
       .moveCmd (it.x, it.y) (it.x + dx, it.y + dy) :: g)

/-- `SchematicScene::alignElements` (`src/qucs/schematicscene.cpp:1876`):
fewer than two selected items — return `false` having touched nothing;
otherwise open an alignment macro, disconnect, move every non-wire item so
the chosen edge/center of its bounding rect meets that of the union rect,
reconnect, close the macro. -/
def alignElements (al : Alignment) (items : List SItem)
    (log : List UndoEntry) : Bool × List SItem × List UndoEntry :=
  if items.length < 2 then (false, items, log)
  else
    let rect := unionRect items
    let (moved, moveLog) := alignLoop al rect items
    (true, moved,
     log ++ [.beginMacro "Align"]
         ++ disconnectItemsLog items true
         ++ moveLog
         ++ connectItemsLog items true
         ++ [.endMacro])

/-! ## Component label suffixes -/

/-- A component as observed by `componentLabelSuffix`: its label prefix and
its label suffix as parsed by `QString::toInt` (`none` when the suffix text
is not numeric). -/
structure Component where
  labelPrefix : String
  labelSuffix : Option Int
deriving DecidableEq, Repr

/-- `SchematicScene::componentLabelSuffix` (`src/qucs/schematicscene.cpp:2863`):
walk the scene's components; for every one whose prefix matches and whose
suffix parses, raise the running maximum (started at `1`) to `suffix + 1`. -/
def componentLabelSuffix (pre : String) (comps : List Component) : Int :=
  comps.foldl
    (fun mx c =>
      if c.labelPrefix = pre then
        match c.labelSuffix with
        | some s => max mx (s + 1)
        | none => mx
      else mx)
    1

/-- The numeric suffixes of the scene components matching a prefix (the
set the spec's "maximum numeric suffix among components with the same
label prefix" ranges over). -/
def suffixesOf (pre : String) (comps : List Component) : List Int :=
  comps.filterMap fun c => if c.labelPrefix = pre then c.labelSuffix else none

/-- The label-assignment step of `SchematicScene::placeItem`
(`src/qucs/schematicscene.cpp:2802`): a placed component is relabelled
`prefix + componentLabelSuffix(prefix)`. -/
def placeComponentLabel (c : Component) (scene : List Component) : Component :=
  { c with labelSuffix := some (componentLabelSuffix c.labelPrefix scene) }

/-! ## Paste -/

/-- A token of the clipboard XML stream as seen through `Qucs::XmlReader`:
a start element (with the `version` attribute, read only on the root) or an
end element. -/
inductive XmlEvent where
  | start (name : String) (version : String)
  | endE
deriving DecidableEq, Repr

/-- Modelled from the spec: `Qucs::checkVersion` (not part of the snapshot)
accepts exactly the document version the application writes. -/
def checkVersion (v : String) : Bool := v == "0.1.0"

/-- The kind of item produced by `Component::loadComponentData` /
`Wire::loadWireData` / `Painting::loadPainting`. -/
inductive PastedItem where
  | component
  | wire
  | painting
deriving DecidableEq, Repr

/-- Consume the rest of the current element (the loaders read through their
item's matching end element); `d` counts nested open elements. -/
def skipToEnd : Nat → List XmlEvent → List XmlEvent
  | _, [] => []
  | 0, .endE :: rest => rest
  | d + 1, .endE :: rest => skipToEnd d rest
  | d, .start _ _ :: rest => skipToEnd (d + 1) rest

/-- The item-reading loop of `SchematicScene::paste`
(`src/qucs/schematicscene.cpp:569`): read the next token; an end element
breaks the loop; a known start element loads one item (consuming through
its end element); an unknown start element leaves `readItem` null and the
loop simply continues.  `fuel` bounds the iteration count (each step
consumes at least one token). -/
def pasteLoop : Nat → List XmlEvent → List PastedItem → List PastedItem
  | 0, _, acc => acc
  | _ + 1, [], acc => acc
  | fuel + 1, ev :: rest, acc =>
    match ev with
    | .endE => acc
    | .start name _ =>
      if name == "component" then pasteLoop fuel (skipToEnd 0 rest) (acc ++ [.component])
      else if name == "wire" then pasteLoop fuel (skipToEnd 0 rest) (acc ++ [.wire])
      else if name == "painting" then pasteLoop fuel (skipToEnd 0 rest) (acc ++ [.painting])
      else pasteLoop fuel rest acc

/-- The scan of `SchematicScene::paste`'s first loop
(`src/qucs/schematicscene.cpp:552`): read until a start element named
"qucs" turns up. -/
def findQucs : List XmlEvent → Option (String × List XmlEvent)
  | [] => none
  | .start "qucs" v :: rest => some (v, rest)
  | _ :: rest => findQucs rest

/-- `SchematicScene::paste` (`src/qucs/schematicscene.cpp:546`): scan for the
`qucs` root (abort if absent), check its version attribute (abort if not
accepted), then read items and hand them to `beginInsertingItems`.  `none`
models the early `return`s; `some items` the final
`beginInsertingItems(_items)` call.  No path touches the undo stack. -/
def paste (evs : List XmlEvent) : Option (List PastedItem) :=
  match findQucs evs with
  | none => none
  | some (v, rest) =>
    if checkVersion v then some (pasteLoop rest.length rest []) else none

/-- A clipboard stream whose root and version are fine but whose item list
holds a component, an element of unknown kind, and a second component. -/
def demoPaste : List XmlEvent :=
  [.start "qucs" "0.1.0",
   .start "component" "", .endE,
   .start "mystery" "", .endE,
   .start "component" "", .endE,
   .endE]

/-! ## Mouse actions and scene reset -/

/-- `SchematicScene::MouseAction`. -/
inductive MouseAction where
  | Normal
  | Wiring
  | Deleting
  | Marking
  | Rotating
  | MirroringX
  | MirroringY
  | ChangingActiveStatus
  | SettingOnGrid
  | ZoomingAtPoint
  | ZoomingOutAtPoint
  | PaintingDrawEvent
  | InsertingItems
  | InsertingWireLabel
deriving DecidableEq, Repr

/-- `QGraphicsView::DragMode` as set by `setCurrentMouseAction`. -/
inductive DragMode where
  | rubberBandDrag
  | noDrag
deriving DecidableEq, Repr

/-- The slice of `SchematicScene` state touched by `setCurrentMouseAction`
and `resetState`: the current action, the moving flag, focus/selection,
the insertibles list, the wiring sub-machine, the in-progress painting
item and its click count, the zoom rubber band, the shortcut block, and
the views' drag mode. -/
structure SceneState where
  currentMouseAction : MouseAction
  areItemsMoving : Bool
  focusItem : Option Nat
  selectedItems : List Nat
  insertibles : List Nat
  wiring : WiringM
  paintingDrawItem : Option Nat
  paintingDrawClicks : Nat
  zoomBand : Option Nat
  shortcutsBlocked : Bool
  dragMode : DragMode
deriving DecidableEq, Repr

/-- `SchematicScene::resetState` (`src/qucs/schematicscene.cpp:483`): clear
focus and selection, delete the insertibles, reset the wiring sub-machine,
delete the in-progress painting item and the zoom band. -/
def resetState (s : SceneState) : SceneState :=
  { s with
    focusItem := none
    selectedItems := []
    insertibles := []
    wiring := resetStateWiring s.wiring
    paintingDrawItem := none
    paintingDrawClicks := 0
    zoomBand := none }

/-- `SchematicScene::setCurrentMouseAction` (`src/qucs/schematicscene.cpp:410`):
identical action — return at once; otherwise unblock shortcuts when leaving
`InsertingItems`, block them when entering it, clear the moving flag, set
the action, set the views' drag mode (rubber band only for `Normal`), and
perform the full reset. -/
def setCurrentMouseAction (action : MouseAction) (s : SceneState) : SceneState :=
  if s.currentMouseAction = action then s
  else
    let s := if s.currentMouseAction = .InsertingItems then
               { s with shortcutsBlocked := false } else s
    let s := if action = .InsertingItems then
               { s with shortcutsBlocked := true } else s
    let s := { s with areItemsMoving := false, currentMouseAction := action }
    let s := { s with dragMode := if action = .Normal then .rubberBandDrag
                                  else .noDrag }
    resetState s

/-! ### Arithmetic facts about the snap function -/

theorem tmod_neg_left (a b : Int) : (-a).tmod b = -(a.tmod b) := by
  rw [Int.tmod_def, Int.tmod_def, Int.neg_tdiv]; ring

/-- Truncated remainder of a nonnegative value with prescribed residue. -/
theorem tmod_eq_of {grid v r : Int} (hv : 0 ≤ v) (h0 : 0 ≤ r) (h1 : r < grid)
    (hd : grid ∣ v - r) : v.tmod grid = r := by
  obtain ⟨k, hk⟩ := hd
  rw [Int.tmod_eq_emod hv (by omega)]
  have hvr : v = r + grid * k := by omega
  rw [hvr, Int.add_mul_emod_self_left, Int.emod_eq_of_lt h0 h1]

/-- The snapped coordinate is always a multiple of the grid spacing. -/
theorem snapAxis_dvd (grid x : Int) : grid ∣ snapAxis grid x :=
  ⟨(snapPre grid x).tdiv grid, by unfold snapAxis; rw [Int.tmod_def]; ring⟩

/-- Multiples of the grid spacing are fixed points of `snapAxis` when the
spacing is at least `2`. -/
theorem snapAxis_fixed {grid m : Int} (hg : 2 ≤ grid) (hm : grid ∣ m) :
    snapAxis grid m = m := by
  have hdiv : grid.tdiv 2 = grid / 2 := Int.tdiv_eq_ediv (by omega) (by omega)
  have hh0 : 1 ≤ grid.tdiv 2 := by omega
  have hh1 : grid.tdiv 2 < grid := by omega
  unfold snapAxis snapPre
  by_cases hneg : m < 0
  · simp only [if_pos hneg]
    have hx1 : m - (grid.tdiv 2 - 1) = -(-m + grid.tdiv 2 - 1) := by ring
    have hmod : (-m + grid.tdiv 2 - 1).tmod grid = grid.tdiv 2 - 1 := by
      refine tmod_eq_of (by omega) (by omega) (by omega) ?_
      have : -m + grid.tdiv 2 - 1 - (grid.tdiv 2 - 1) = -m := by ring
      rw [this]
      exact (dvd_neg).mpr hm
    rw [hx1, tmod_neg_left, hmod]
    omega
  · simp only [if_neg hneg]
    have hmod : (m + grid.tdiv 2).tmod grid = grid.tdiv 2 := by
      refine tmod_eq_of (by omega) (by omega) (by omega) ?_
      simpa using hm
    rw [hmod]
    omega

/-- Stepping an integer down by one does not change its euclidean quotient
unless the integer is a multiple of the (positive) divisor. -/
theorem pred_ediv_eq {grid n : Int} (hg : 0 < grid) (hnd : ¬ grid ∣ n) :
    (n - 1) / grid = n / grid := by
  have hr0 : 0 ≤ n % grid := Int.emod_nonneg n (by omega)
  have hr1 : n % grid < grid := Int.emod_lt_of_pos n hg
  have hrne : n % grid ≠ 0 := fun h => hnd (Int.dvd_of_emod_eq_zero h)
  have hn : n = grid * (n / grid) + n % grid := (Int.ediv_add_emod n grid).symm
  have h1 : n - 1 = (n % grid - 1) + grid * (n / grid) := by omega
  have h2 : (n - 1) / grid = (n % grid - 1) / grid + n / grid := by
    rw [h1, Int.add_mul_ediv_left _ _ (by omega : grid ≠ 0)]
  have h3 : (n % grid - 1) / grid = 0 :=
    Int.ediv_eq_zero_of_lt (by omega) (by omega)
  omega

/-- For a positive coordinate `c` with `c + grid/2` not a multiple of the
spacing, snapping `-c` gives the negation of snapping `c`. -/
theorem snapAxis_neg_pos {grid c : Int} (hg : 2 ≤ grid) (hc : 0 < c)
    (hnd : ¬ grid ∣ (c + grid.tdiv 2)) :
    snapAxis grid (-c) = -(snapAxis grid c) := by
  have hdiv : grid.tdiv 2 = grid / 2 := Int.tdiv_eq_ediv (by omega) (by omega)
  have hh0 : 1 ≤ grid.tdiv 2 := by omega
  unfold snapAxis snapPre
  have hcneg : -c < 0 := by omega
  have hcpos : ¬ c < 0 := by omega
  simp only [if_pos hcneg, if_neg hcpos]
  have hx1 : -c - (grid.tdiv 2 - 1) = -(c + grid.tdiv 2 - 1) := by ring
  -- the negative side
  have hmodneg : (c + grid.tdiv 2 - 1).tmod grid = (c + grid.tdiv 2 - 1) % grid := by
    exact Int.tmod_eq_emod (by omega) (by omega)
  -- the positive side
  have hmodpos : (c + grid.tdiv 2).tmod grid = (c + grid.tdiv 2) % grid := by
    exact Int.tmod_eq_emod (by omega) (by omega)
  rw [hx1, tmod_neg_left, hmodneg, hmodpos]
  have e1 : c + grid.tdiv 2 - 1 - (c + grid.tdiv 2 - 1) % grid
      = grid * ((c + grid.tdiv 2 - 1) / grid) := by
    have := Int.emod_def (c + grid.tdiv 2 - 1) grid
    omega
  have e2 : c + grid.tdiv 2 - (c + grid.tdiv 2) % grid
      = grid * ((c + grid.tdiv 2) / grid) := by
    have := Int.emod_def (c + grid.tdiv 2) grid
    omega
  have hqe : (c + grid.tdiv 2 - 1) / grid = (c + grid.tdiv 2) / grid :=
    pred_ediv_eq (by omega) hnd
  have goal1 : -(c + grid.tdiv 2 - 1) - -((c + grid.tdiv 2 - 1) % grid)
      = -(grid * ((c + grid.tdiv 2 - 1) / grid)) := by omega
  rw [goal1, hqe]
  omega

/-- Snapping zero yields zero (grid spacing at least `2`). -/
theorem snapAxis_zero {grid : Int} (hg : 2 ≤ grid) : snapAxis grid 0 = 0 := by
  have hdiv : grid.tdiv 2 = grid / 2 := Int.tdiv_eq_ediv (by omega) (by omega)
  unfold snapAxis snapPre
  simp only [if_neg (by omega : ¬ (0:Int) < 0)]
  have hmod : ((0:Int) + grid.tdiv 2).tmod grid = grid.tdiv 2 :=
    tmod_eq_of (by omega) (by omega) (by omega) (by simp)
  rw [hmod]
  omega

/-- Sign-symmetry of one snap axis away from half-grid tie positions. -/
theorem snapAxis_neg {grid c : Int} (hg : 2 ≤ grid)
    (hok : c = 0 ∨ ¬ grid ∣ (c.natAbs + grid.tdiv 2)) :
    snapAxis grid (-c) = -(snapAxis grid c) := by
  rcases hok with h0 | hnd
  · subst h0; simp [snapAxis_zero hg]
  · rcases lt_trichotomy c 0 with hlt | heq | hgt
    · have habs : (c.natAbs : Int) = -c := by omega
      rw [habs] at hnd
      have := snapAxis_neg_pos hg (by omega : 0 < -c) hnd
      rw [neg_neg] at this
      omega
    · subst heq; simp [snapAxis_zero hg]
    · have habs : (c.natAbs : Int) = c := by omega
      rw [habs] at hnd
      exact snapAxis_neg_pos hg hgt hnd

/-! ## Claim C1 — the interactive wiring run

Auxiliary computation lemmas about the wire operations, the invariant of
the `COMPLEX_WIRE` drawing phase, and the step lemmas of the run. -/

theorem setLastP2_cons (a : WireLine) (l : WireLines) (p : Pt) (h : l ≠ []) :
    Wire.setLastP2 (a :: l) p = a :: Wire.setLastP2 l p := by
  cases l with
  | nil => exact absurd rfl h
  | cons b bs => rfl

theorem setLastP2_append_two (l : WireLines) (a b : WireLine) (p : Pt) :
    Wire.setLastP2 (l ++ [a, b]) p = l ++ [a, ⟨b.p1, p⟩] := by
  induction l with
  | nil => rfl
  | cons x xs ih =>
    rw [List.cons_append, setLastP2_cons _ _ _ (by simp), ih, List.cons_append]

theorem filter_nonNull_eq_self {segs : WireLines}
    (h : ∀ l ∈ segs, l.p1 ≠ l.p2) :
    segs.filter (fun l => decide (l.p1 ≠ l.p2)) = segs :=
  List.filter_eq_self.mpr fun a ha => decide_eq_true (h a ha)

theorem filter_two_tail (pk p : Pt) (hne : pk ≠ p) :
    ([⟨pk, pk⟩, ⟨pk, p⟩] : WireLines).filter (fun l => decide (l.p1 ≠ l.p2))
      = [⟨pk, p⟩] := by
  simp [List.filter, hne]

theorem port2pos_concat (segs : WireLines) (s : WireLine) (st : WireLines)
    (c pc : Bool) : Wire.port2pos ⟨segs ++ [s], st, c, pc⟩ = s.p2 := by
  unfold Wire.port2pos
  rw [List.getLast?_concat]
  rfl

theorem mkSegs_length : ∀ (a : Pt) (l : List Pt),
    (mkSegs a l).length = l.length := by
  intro a l
  induction l generalizing a with
  | nil => rfl
  | cons b bs ih => simp [mkSegs, ih]

theorem getLast?_cons_eq : ∀ (a : Pt) (l : List Pt),
    (a :: l).getLast? = some (l.getLastD a) := by
  intro a l
  induction l generalizing a with
  | nil => rfl
  | cons b bs ih => rw [List.getLast?_cons_cons, ih, List.getLastD_cons]

/-- A left click in `COMPLEX_WIRE` on the moved wire: the pending segment
is committed by a `WireStateChangeCmd` inside the "Add wiring control
point" macro, and two fresh null segments are appended for the next leg. -/
theorem leftClick_complex_compute (segs : WireLines) (pk p : Pt)
    (log : List UndoEntry)
    (hnn : ∀ l ∈ segs, l.p1 ≠ l.p2) (hne : pk ≠ p)
    (hov : (⟨segs ++ [⟨pk, pk⟩, ⟨pk, p⟩], segs, true, false⟩ : Wire).overlap
        = false) :
    wiringEventLeftMouseClick p
      ⟨.COMPLEX_WIRE, some ⟨segs ++ [⟨pk, pk⟩, ⟨pk, p⟩], segs, true, false⟩,
        [], log⟩
    = ⟨.COMPLEX_WIRE,
        some ⟨(segs ++ [⟨pk, p⟩]) ++ [⟨p, p⟩, ⟨p, p⟩], segs ++ [⟨pk, p⟩],
          true, false⟩,
        [],
        log ++ [.beginMacro "Add wiring control point",
          .wireStateChangeCmd segs (segs ++ [⟨pk, pk⟩, ⟨pk, p⟩]), .endMacro]⟩ := by
  have hfilter : (segs ++ [⟨pk, pk⟩, ⟨pk, p⟩] : WireLines).filter
      (fun l => decide (l.p1 ≠ l.p2)) = segs ++ [⟨pk, p⟩] := by
    rw [List.filter_append, filter_nonNull_eq_self hnn, filter_two_tail pk p hne]
  unfold wiringEventLeftMouseClick
  simp only [hov, Bool.false_eq_true, if_false]
  unfold wiringEventCommon
  simp only [Wire.removeNullLines, hfilter]
  unfold Wire.checkAndConnect scenePortPositions
  simp only [List.flatMap_nil, List.contains_nil]
  unfold wiringEventLeftMouseClickAddSegment
  simp only [Wire.storeState, port2pos_concat]
  simp
  exact port2pos_concat segs ⟨pk, p⟩ _ _ _

/-- One accepted left click at a fresh position preserves the
`COMPLEX_WIRE` invariant and extends the committed polyline by one
segment. -/
theorem leftStep_complex {m : WiringM} {segs : WireLines} {pk : Pt}
    (h : InvC m segs pk) {p : Pt} (hne : pk ≠ p)
    (hacc : clickAccepted (wiringEventMouseMove p m) = true) :
    InvC (leftStep m p) (segs ++ [⟨pk, p⟩]) p := by
  obtain ⟨⟨log, rfl⟩, hne0, hnn, hlast⟩ := h
  have hmove : wiringEventMouseMove p
      ⟨.COMPLEX_WIRE, some ⟨segs ++ [⟨pk, pk⟩, ⟨pk, pk⟩], segs, true, false⟩,
        [], log⟩
      = ⟨.COMPLEX_WIRE, some ⟨segs ++ [⟨pk, pk⟩, ⟨pk, p⟩], segs, true, false⟩,
          [], log⟩ := by
    unfold wiringEventMouseMove
    simp [Wire.movePort2, setLastP2_append_two]
  rw [hmove] at hacc
  have hov : (⟨segs ++ [⟨pk, pk⟩, ⟨pk, p⟩], segs, true, false⟩ : Wire).overlap
      = false := by
    simpa [clickAccepted] using hacc
  unfold leftStep
  rw [hmove, leftClick_complex_compute segs pk p log hnn hne hov]
  refine ⟨⟨_, rfl⟩, by simp, ?_, ?_⟩
  · intro l hl
    rcases List.mem_append.mp hl with h1 | h2
    · exact hnn l h1
    · simp only [List.mem_singleton] at h2
      subst h2
      exact hne
  · unfold lastP2
    rw [List.getLast?_concat]
    rfl

/-- The accepted left-click fold preserves the invariant, accumulating one
committed segment per click. -/
theorem foldl_leftStep_inv :
    ∀ (ps : List Pt) (m : WiringM) (segs : WireLines) (pk : Pt),
      InvC m segs pk → List.Chain' (· ≠ ·) (pk :: ps) →
      leftRunAccepted m ps = true →
      InvC (ps.foldl leftStep m) (segs ++ mkSegs pk ps) (ps.getLastD pk) := by
  intro ps
  induction ps with
  | nil =>
    intro m segs pk h _ _
    simpa [mkSegs] using h
  | cons p rest ih =>
    intro m segs pk h hchain hacc
    obtain ⟨hpk, hchain'⟩ := List.chain'_cons.mp hchain
    simp only [leftRunAccepted, Bool.and_eq_true] at hacc
    obtain ⟨hacc1, hacc2⟩ := hacc
    have hstep := leftStep_complex h hpk hacc1
    have hmain := ih (leftStep m p) (segs ++ [⟨pk, p⟩]) p hstep hchain' hacc2
    rw [List.foldl_cons, show mkSegs pk (p :: rest) = ⟨pk, p⟩ :: mkSegs p rest
          from rfl,
        List.getLastD_cons,
        show segs ++ (⟨pk, p⟩ :: mkSegs p rest)
            = (segs ++ [⟨pk, p⟩]) ++ mkSegs p rest by simp]
    exact hmain

theorem leftStep_init (p : Pt) : leftStep initWiring p = singState p := rfl

theorem singleton_overlap_false {p1 p2 : Pt} (hne : p1 ≠ p2)
    (st : WireLines) (c pc : Bool) :
    (⟨[⟨p1, p2⟩], st, c, pc⟩ : Wire).overlap = false := by
  unfold Wire.overlap
  simp [List.filter, hne, selfOverlapping, badWith]

/-- The second left click turns the singleton wire into the
`COMPLEX_WIRE` invariant with one committed segment. -/
theorem leftStep_sing {p1 p2 : Pt} (hne : p1 ≠ p2) :
    InvC (leftStep (singState p1) p2) [⟨p1, p2⟩] p2 := by
  have hmove : wiringEventMouseMove p2 (singState p1)
      = ⟨.SINGLETON_WIRE, some ⟨[⟨p1, p2⟩], [⟨p1, p1⟩], false, false⟩, [], []⟩ := by
    unfold singState wiringEventMouseMove
    simp [Wire.movePort2, Wire.setLastP2]
  have hov := singleton_overlap_false hne [⟨p1, p1⟩] false false
  have hfilter : ([⟨p1, p2⟩] : WireLines).filter
      (fun l => decide (l.p1 ≠ l.p2)) = [⟨p1, p2⟩] := by
    simp [List.filter, hne]
  unfold leftStep
  rw [hmove]
  unfold wiringEventLeftMouseClick
  simp only [hov, Bool.false_eq_true, if_false]
  unfold wiringEventCommon
  simp only [Wire.removeNullLines, hfilter]
  unfold Wire.checkAndConnect scenePortPositions
  simp only [List.flatMap_nil, List.contains_nil]
  unfold wiringEventLeftMouseClickAddSegment
  simp only [Wire.storeState, if_true, Bool.or_false, Bool.false_eq_true,
    if_false, Wire.port2pos]
  refine ⟨⟨[.beginMacro "Add wiring control point", .addWireCmd, .endMacro],
      ?_⟩, by simp, ?_, ?_⟩
  · simp
  · intro l hl
    simp only [List.mem_singleton] at hl
    subst hl
    exact hne
  · rfl

/-- An accepted right click at a fresh position commits the pending
segment and finalizes: the wire, with its full committed polyline, stays
on the scene, the machine ends at `NO_WIRE` with no current wire. -/
theorem rightStep_complex {m : WiringM} {segs : WireLines} {pk : Pt}
    (h : InvC m segs pk) {q : Pt} (hne : pk ≠ q)
    (hacc : clickAccepted (wiringEventMouseMove q m) = true) :
    ∃ log, rightStep m q
      = ⟨.NO_WIRE, none, [⟨segs ++ [⟨pk, q⟩], segs, true, false⟩], log⟩ := by
  obtain ⟨⟨log, rfl⟩, hne0, hnn, hlast⟩ := h
  have hmove : wiringEventMouseMove q
      ⟨.COMPLEX_WIRE, some ⟨segs ++ [⟨pk, pk⟩, ⟨pk, pk⟩], segs, true, false⟩,
        [], log⟩
      = ⟨.COMPLEX_WIRE, some ⟨segs ++ [⟨pk, pk⟩, ⟨pk, q⟩], segs, true, false⟩,
          [], log⟩ := by
    unfold wiringEventMouseMove
    simp [Wire.movePort2, setLastP2_append_two]
  rw [hmove] at hacc
  have hov : (⟨segs ++ [⟨pk, pk⟩, ⟨pk, q⟩], segs, true, false⟩ : Wire).overlap
      = false := by
    simpa [clickAccepted] using hacc
  have hfilter : (segs ++ [⟨pk, pk⟩, ⟨pk, q⟩] : WireLines).filter
      (fun l => decide (l.p1 ≠ l.p2)) = segs ++ [⟨pk, q⟩] := by
    rw [List.filter_append, filter_nonNull_eq_self hnn, filter_two_tail pk q hne]
  unfold rightStep
  rw [hmove]
  unfold wiringEventRightMouseClick
  simp only [hov, Bool.false_eq_true, if_false]
  unfold wiringEventCommon
  simp only [Wire.removeNullLines, hfilter]
  unfold Wire.checkAndConnect scenePortPositions
  simp only [List.flatMap_nil, List.contains_nil]
  unfold wiringEventMouseClickFinalize
  simp only [Wire.removeNullLines]
  refine ⟨log ++ [.beginMacro "Add wiring control point",
    .wireStateChangeCmd segs (segs ++ [⟨pk, pk⟩, ⟨pk, q⟩]), .endMacro], ?_⟩
  have hfA := filter_nonNull_eq_self hnn
  have hfB : ([⟨pk, q⟩] : WireLines).filter
      (fun l => decide (l.p1 ≠ l.p2)) = [⟨pk, q⟩] := by
    simp [List.filter, hne]
  simp only [ne_eq, decide_not] at hfA hfB
  simp [hfA, hfB]

/-- A right click after a single left click commits the one drawn segment
and finalizes. -/
theorem rightStep_sing {p1 q : Pt} (hne : p1 ≠ q) :
    ∃ log, rightStep (singState p1) q
      = ⟨.NO_WIRE, none, [⟨[⟨p1, q⟩], [⟨p1, p1⟩], true, false⟩], log⟩ := by
  have hmove : wiringEventMouseMove q (singState p1)
      = ⟨.SINGLETON_WIRE, some ⟨[⟨p1, q⟩], [⟨p1, p1⟩], false, false⟩, [], []⟩ := by
    unfold singState wiringEventMouseMove
    simp [Wire.movePort2, Wire.setLastP2]
  have hov := singleton_overlap_false hne [⟨p1, p1⟩] false false
  have hfilter : ([⟨p1, q⟩] : WireLines).filter
      (fun l => decide (l.p1 ≠ l.p2)) = [⟨p1, q⟩] := by
    simp [List.filter, hne]
  unfold rightStep
  rw [hmove]
  unfold wiringEventRightMouseClick
  simp only [hov, Bool.false_eq_true, if_false]
  unfold wiringEventCommon
  simp only [Wire.removeNullLines, hfilter]
  unfold Wire.checkAndConnect scenePortPositions
  simp only [List.flatMap_nil, List.contains_nil]
  unfold wiringEventMouseClickFinalize
  simp only [Wire.removeNullLines]
  refine ⟨[.beginMacro "Add wiring control point", .addWireCmd, .endMacro], ?_⟩
  simp [List.filter, hne]

theorem rightStep_init (q : Pt) : rightStep initWiring q = initWiring := rfl

/-- C1: starting at `NO_WIRE` on an empty scene, a session of `N` left
clicks followed by one right click, each click at a fresh cursor position
(consecutive positions distinct) and none rejected by the overlap check,
always terminates at `NO_WIRE` with no uncommitted in-progress wire
(`m_currentWiringWire` null), every wire left on the scene committed, and
exactly `N` committed wire segments on the scene. -/
theorem C1_wiring_run (ps : List Pt) (q : Pt)
    (hchain : List.Chain' (· ≠ ·) (ps ++ [q]))
    (hacc : wiringRunAccepted ps q = true) :
    (runWiring ps q).wiringState = .NO_WIRE ∧
    (runWiring ps q).currentWire = none ∧
    (runWiring ps q).sceneWires.all (·.committed) = true ∧
    sceneCommittedSegCount (runWiring ps q) = ps.length := by
  match ps with
  | [] =>
    have h0 : runWiring [] q = initWiring := rightStep_init q
    rw [h0]
    exact ⟨rfl, rfl, rfl, rfl⟩
  | [p1] =>
    have hne : p1 ≠ q := by
      have h : List.Chain' (· ≠ ·) [p1, q] := by simpa using hchain
      exact (List.chain'_cons.mp h).1
    obtain ⟨log, hr⟩ := rightStep_sing hne
    have hrun : runWiring [p1] q = rightStep (singState p1) q := by
      unfold runWiring
      rw [List.foldl_cons, List.foldl_nil, leftStep_init]
    rw [hrun, hr]
    refine ⟨rfl, rfl, rfl, ?_⟩
    simp [sceneCommittedSegCount]
  | p1 :: p2 :: rest =>
    have hchain' : List.Chain' (· ≠ ·) (p1 :: p2 :: (rest ++ [q])) := by
      simpa using hchain
    obtain ⟨h12, hchain2⟩ := List.chain'_cons.mp hchain'
    have hchain3 : List.Chain' (· ≠ ·) ((p2 :: rest) ++ [q]) := by
      simpa using hchain2
    obtain ⟨hchainA, -, hlastq⟩ := List.chain'_append.mp hchain3
    have hlast : rest.getLastD p2 ≠ q := by
      refine hlastq _ ?_ q ?_
      · rw [getLast?_cons_eq]
        rfl
      · rfl
    unfold wiringRunAccepted at hacc
    simp only [Bool.and_eq_true] at hacc
    obtain ⟨haccL, haccR⟩ := hacc
    simp only [leftRunAccepted, Bool.and_eq_true] at haccL
    obtain ⟨-, -, haccL3⟩ := haccL
    have hInv := foldl_leftStep_inv rest (leftStep (singState p1) p2)
      [⟨p1, p2⟩] p2 (leftStep_sing h12) hchainA haccL3
    have haccR' : clickAccepted (wiringEventMouseMove q
        (rest.foldl leftStep (leftStep (singState p1) p2))) = true := haccR
    obtain ⟨log, hr⟩ := rightStep_complex hInv hlast haccR'
    have hrun : runWiring (p1 :: p2 :: rest) q
        = rightStep (rest.foldl leftStep (leftStep (singState p1) p2)) q := by
      unfold runWiring
      rw [List.foldl_cons, List.foldl_cons, leftStep_init]
    rw [hrun, hr]
    refine ⟨rfl, rfl, rfl, ?_⟩
    simp [sceneCommittedSegCount, mkSegs_length]

/-- C1 witness: an L-shaped run — left clicks at `(0,0)`, `(10,0)`,
`(10,10)`, right click at `(20,10)` — ends at `NO_WIRE`, detaches the
current wire, and leaves exactly 3 committed segments. -/
theorem C1_witness :
    (runWiring [⟨0, 0⟩, ⟨10, 0⟩, ⟨10, 10⟩] ⟨20, 10⟩).wiringState
        = .NO_WIRE ∧
    (runWiring [⟨0, 0⟩, ⟨10, 0⟩, ⟨10, 10⟩] ⟨20, 10⟩).currentWire = none ∧
    sceneCommittedSegCount (runWiring [⟨0, 0⟩, ⟨10, 0⟩, ⟨10, 10⟩] ⟨20, 10⟩)
        = 3 :=
  have h := C1_wiring_run [⟨0, 0⟩, ⟨10, 0⟩, ⟨10, 10⟩] ⟨20, 10⟩
    (by simp [List.chain'_cons]) (by decide)
  ⟨h.1, h.2.1, h.2.2.2⟩

/-! ## Claim C5 — grid snap idempotence -/

/-- C5, counterexample: `nearingGridPoint` is not idempotent for every grid
width/height.  With grid spacing 1 the negative branch shifts by `-(0-1)=+1`
before truncation, so `-3` snaps to `-2`, which snaps to `-1`. -/
theorem C5_counterexample :
    nearingGridPoint 1 1 (nearingGridPoint 1 1 ⟨-3, -3⟩)
      ≠ nearingGridPoint 1 1 ⟨-3, -3⟩ := by decide

/-- C5 (amended): for grid width and height at least 2 — every spacing the
application actually configures (`DEFAULT_GRID_SPACE = 10`) — the grid-snap
function is idempotent: `nearingGridPoint (nearingGridPoint p) =
nearingGridPoint p` for every point `p`. -/
theorem C5_snap_idempotent (gw gh : Int) (hw : 2 ≤ gw) (hh : 2 ≤ gh) (p : Pt) :
    nearingGridPoint gw gh (nearingGridPoint gw gh p)
      = nearingGridPoint gw gh p := by
  simp only [nearingGridPoint]
  rw [snapAxis_fixed hw (snapAxis_dvd gw p.x),
      snapAxis_fixed hh (snapAxis_dvd gh p.y)]

/-- C5 witness: the amended idempotence applied at grid 10 and `(-7, 13)`. -/
theorem C5_witness :
    nearingGridPoint 10 10 (nearingGridPoint 10 10 ⟨-7, 13⟩)
      = nearingGridPoint 10 10 ⟨-7, 13⟩ :=
  C5_snap_idempotent 10 10 (by decide) (by decide) ⟨-7, 13⟩

/-! ## Claim C6 — sign symmetry of grid snap -/

/-- C6, counterexample: snapping is not symmetric across the origin for
every point.  With the default grid spacing 10, the half-grid point `5`
snaps to `10` while `-5` snaps to `0`, not `-10`. -/
theorem C6_counterexample :
    nearingGridPoint 10 10 (-(⟨5, 5⟩ : Pt))
      ≠ -(nearingGridPoint 10 10 ⟨5, 5⟩) := by decide

/-- C6 (amended): `nearingGridPoint` rounds each axis independently to a
multiple of the grid spacing with the sign-aware shift (negative
coordinates are shifted by one grid half-step minus one before
truncation), and for grid spacings at least 2 this is symmetric across the
origin, `snap (-p) = -(snap p)`, for every point `p` in which each
coordinate `c` is zero or has `|c| + spacing/2` not a multiple of the
spacing; at the exceptional half-grid tie coordinates both signs round
toward `+∞`. -/
theorem C6_snap_symmetric (gw gh : Int) (hw : 2 ≤ gw) (hh : 2 ≤ gh) (p : Pt)
    (hx : p.x = 0 ∨ ¬ gw ∣ ((p.x.natAbs : Int) + gw.tdiv 2))
    (hy : p.y = 0 ∨ ¬ gh ∣ ((p.y.natAbs : Int) + gh.tdiv 2)) :
    nearingGridPoint gw gh (-p) = -(nearingGridPoint gw gh p) := by
  simp only [nearingGridPoint, Pt.neg_def]
  rw [snapAxis_neg hw hx, snapAxis_neg hh hy]

/-- C6 witness: symmetry applied at grid 10 and `(7, 13)`. -/
theorem C6_witness :
    nearingGridPoint 10 10 (-(⟨7, 13⟩ : Pt))
      = -(nearingGridPoint 10 10 ⟨7, 13⟩) :=
  C6_snap_symmetric 10 10 (by decide) (by decide) ⟨7, 13⟩
    (Or.inr (by decide)) (Or.inr (by decide))

/-! ## Claim C3 — overlap rejection leaves everything unchanged -/

/-- C3: a left or right click arriving in `SINGLETON_WIRE` or
`COMPLEX_WIRE` while the in-progress wire self-overlaps is silently
rejected: the whole machine state — wiring state, wire segments, scene and
undo journal — is returned unchanged, before any command or macro is
recorded. -/
theorem C3_overlap_click_rejected (m : WiringM) (w : Wire) (p : Pt)
    (hw : m.currentWire = some w) (hov : w.overlap = true)
    (hst : m.wiringState = .SINGLETON_WIRE ∨ m.wiringState = .COMPLEX_WIRE) :
    wiringEventLeftMouseClick p m = m ∧ wiringEventRightMouseClick m = m := by
  rcases hst with h | h <;>
    constructor <;>
      simp [wiringEventLeftMouseClick, wiringEventRightMouseClick, h, hw, hov]

/-- C3 witness: both clicks rejected on the doubled-back wire. -/
theorem C3_witness :
    wiringEventLeftMouseClick ⟨5, 0⟩ demoOverlapState = demoOverlapState ∧
    wiringEventRightMouseClick demoOverlapState = demoOverlapState :=
  C3_overlap_click_rejected demoOverlapState demoOverlapWire ⟨5, 0⟩
    rfl (by decide) (Or.inr rfl)

/-! ## Claim C2 — wiring reset -/

/-- C2: the code disagrees with the claim in the `COMPLEX_WIRE` case.
After left clicks at `(0,0)` and `(10,0)` the machine is in `COMPLEX_WIRE`
holding a wire whose segment `(0,0)–(10,0)` is already committed (an
`AddWireCmd` is on the undo journal).  `resetStateWiring` restores the
stored state and then `delete`s `m_currentWiringWire`
(`src/qucs/schematicscene.cpp:470`), which removes the wire — committed
segment included — from the scene: afterwards no wire and no committed
segment remains, where the claim (and spec §4.5) promise the committed
wire stays on the scene. -/
theorem C2_code_eval :
    demoComplex.wiringState = .COMPLEX_WIRE ∧
    demoComplex.currentWire.map Wire.committed = some true ∧
    demoComplex.currentWire.map Wire.stored = some [⟨⟨0, 0⟩, ⟨10, 0⟩⟩] ∧
    demoComplex.undoLog.contains .addWireCmd = true ∧
    (resetStateWiring demoComplex).wiringState = .NO_WIRE ∧
    (resetStateWiring demoComplex).currentWire = none ∧
    (resetStateWiring demoComplex).sceneWires = [] ∧
    sceneCommittedSegCount (resetStateWiring demoComplex) = 0 := by
  decide

/-! ## Claim C10 — setCurrentMouseAction is a no-op on the current action -/

/-- C10: calling `setCurrentMouseAction` with the action already current
returns the scene state unchanged: no reset of selection, focus,
insertibles, the wiring sub-machine, the painting item or the zoom band,
and no change to shortcut blocking or the views' drag mode. -/
theorem C10_setCurrentMouseAction_noop (s : SceneState) (a : MouseAction)
    (h : a = s.currentMouseAction) :
    setCurrentMouseAction a s = s := by
  unfold setCurrentMouseAction
  rw [if_pos h.symm]

/-- C10 witness: a scene full of transient interaction state survives a
same-action call untouched. -/
theorem C10_witness :
    setCurrentMouseAction .Wiring
      ⟨.Wiring, true, some 1, [2], [3], demoComplex, some 4, 2, some 5,
        true, .noDrag⟩
      = ⟨.Wiring, true, some 1, [2], [3], demoComplex, some 4, 2, some 5,
          true, .noDrag⟩ :=
  C10_setCurrentMouseAction_noop _ _ rfl

/-! ## Claim C4 — undo-macro nesting in mirrorItems -/

theorem foldl_macroStep_id {e : UndoEntry}
    (he : ∀ a : Int × Int, macroStep a e = a) :
    ∀ (n : Nat) (a : Int × Int), (List.replicate n e).foldl macroStep a = a := by
  intro n
  induction n with
  | zero => intro a; rfl
  | succ k ih =>
    intro a
    rw [List.replicate_succ, List.foldl_cons, he]
    exact ih a

/-- C4, counterexample: `mirrorItems` with undo does issue a `beginMacro`
while its own "Mirror X" macro is still open — the journal starts with two
consecutive `beginMacro` calls and the open-macro depth reaches 2. -/
theorem C4_counterexample :
    (mirrorItemsLog [⟨0, 0, 4, 4, false, [true], 1⟩] true .X).take 2
        = [.beginMacro "Mirror X", .beginMacro "Disconnect items"] ∧
    macroDepthMax (mirrorItemsLog [⟨0, 0, 4, 4, false, [true], 1⟩] true .X)
        = 2 := by
  decide

/-- C4 (amended): `mirrorItems` with the undo option is *not* nesting-free:
it opens the "Mirror X"/"Mirror Y" macro and then calls
`disconnectItems`/`connectItems`, each of which opens (and closes) its own
macro inside it, so the open-macro depth reaches exactly 2 for every item
list; every `beginMacro` is still balanced by an `endMacro`, so the
operation leaves no macro open (Qt's `QUndoStack` merges the nested macros
into the outer one). -/
theorem C4_mirror_macro_nesting (items : List SItem) (axis : MirrorAxis) :
    macroDepthMax (mirrorItemsLog items true axis) = 2 ∧
    macroDepthNet (mirrorItemsLog items true axis) = 0 := by
  have hd : ∀ a : Int × Int, macroStep a .disconnectCmd = a := by
    rintro ⟨c, b⟩; rfl
  have hc : ∀ a : Int × Int, macroStep a .connectCmd = a := by
    rintro ⟨c, b⟩; rfl
  have hlog : mirrorItemsLog items true axis =
      [UndoEntry.beginMacro
          (match axis with | .X => "Mirror X" | .Y => "Mirror Y"),
        .beginMacro "Disconnect items"]
      ++ (List.replicate (disconnectPushCount items) .disconnectCmd
      ++ ([.endMacro, .mirrorItemsCmd, .beginMacro "Connect items"]
      ++ (List.replicate (connectPushCount items) .connectCmd
      ++ [.endMacro, .endMacro]))) := by
    simp [mirrorItemsLog, disconnectItemsLog, connectItemsLog]
  have hscan : macroScan (mirrorItemsLog items true axis) = (0, 2) := by
    unfold macroScan
    rw [hlog, List.foldl_append, List.foldl_append, List.foldl_append,
        List.foldl_append]
    have h1 : ∀ lbl : String, List.foldl macroStep (0, 0)
        [UndoEntry.beginMacro lbl, .beginMacro "Disconnect items"] = (2, 2) := by
      intro lbl
      simp [macroStep]
    rw [h1, foldl_macroStep_id hd]
    have h2 : List.foldl macroStep (2, 2)
        [UndoEntry.endMacro, .mirrorItemsCmd, .beginMacro "Connect items"]
          = (2, 2) := by
      simp [macroStep]
    rw [h2, foldl_macroStep_id hc]
    simp [macroStep]
  exact ⟨by simp [macroDepthMax, hscan], by simp [macroDepthNet, hscan]⟩

/-! ## Claim C7 — component label suffixes -/

theorem componentLabelSuffix_foldl (pre : String) :
    ∀ (comps : List Component) (a : Int),
      List.foldl
        (fun mx c =>
          if c.labelPrefix = pre then
            match c.labelSuffix with
            | some s => max mx (s + 1)
            | none => mx
          else mx)
        a comps
      = (suffixesOf pre comps).foldl (fun mx s => max mx (s + 1)) a := by
  intro comps
  induction comps with
  | nil => intro a; rfl
  | cons c cs ih =>
    intro a
    simp only [List.foldl_cons]
    by_cases hp : c.labelPrefix = pre
    · cases hs : c.labelSuffix with
      | none =>
        have h2 : suffixesOf pre (c :: cs) = suffixesOf pre cs := by
          simp [suffixesOf, List.filterMap_cons, hp, hs]
        rw [h2]
        simpa [hp, hs] using ih a
      | some s =>
        have h2 : suffixesOf pre (c :: cs) = s :: suffixesOf pre cs := by
          simp [suffixesOf, List.filterMap_cons, hp, hs]
        rw [h2]
        simp only [List.foldl_cons]
        simpa [hp, hs] using ih (max a (s + 1))
    · have h2 : suffixesOf pre (c :: cs) = suffixesOf pre cs := by
        simp [suffixesOf, List.filterMap_cons, hp]
      rw [h2]
      simpa [hp] using ih a

theorem le_foldl_maxsucc :
    ∀ (l : List Int) (a : Int), a ≤ l.foldl (fun mx s => max mx (s + 1)) a := by
  intro l
  induction l with
  | nil => intro a; simp
  | cons s ss ih =>
    intro a
    calc a ≤ max a (s + 1) := le_max_left _ _
      _ ≤ _ := ih _

theorem mem_le_foldl_maxsucc :
    ∀ (l : List Int) (a : Int) {s : Int}, s ∈ l →
      s + 1 ≤ l.foldl (fun mx s => max mx (s + 1)) a := by
  intro l
  induction l with
  | nil => intro a s h; cases h
  | cons t ts ih =>
    intro a s h
    rcases List.mem_cons.mp h with rfl | h'
    · calc s + 1 ≤ max a (s + 1) := le_max_right _ _
        _ ≤ _ := le_foldl_maxsucc ts _
    · exact ih _ h'

theorem foldl_maxsucc_le {B : Int} :
    ∀ (l : List Int) (a : Int), (∀ s ∈ l, s + 1 ≤ B) → a ≤ B →
      l.foldl (fun mx s => max mx (s + 1)) a ≤ B := by
  intro l
  induction l with
  | nil => intro a _ ha; simpa using ha
  | cons s ss ih =>
    intro a h ha
    refine ih _ (fun t ht => h t (List.mem_cons_of_mem _ ht)) ?_
    exact max_le ha (h s (List.mem_cons_self _ _))

/-- C7: when a component is placed, `componentLabelSuffix` assigns the
label suffix `m + 1`, where `m` is the maximum numeric suffix among the
components with the same label prefix currently on the scene; this is what
`placeItem` stores into the placed component's label.  (Deleting and
re-adding components only changes which suffixes are *currently* on the
scene — the result is always the current maximum plus one.) -/
theorem C7_label_suffix (pre : String) (comps : List Component) (m : Int)
    (c : Component)
    (hmem : m ∈ suffixesOf pre comps)
    (hmax : ∀ s ∈ suffixesOf pre comps, s ≤ m)
    (hm : 0 ≤ m) (hc : c.labelPrefix = pre) :
    componentLabelSuffix pre comps = m + 1 ∧
    (placeComponentLabel c comps).labelSuffix = some (m + 1) := by
  have key : componentLabelSuffix pre comps = m + 1 := by
    unfold componentLabelSuffix
    rw [componentLabelSuffix_foldl]
    refine le_antisymm ?_ (mem_le_foldl_maxsucc _ _ hmem)
    exact foldl_maxsucc_le _ _ (fun s hs => by have := hmax s hs; omega)
      (by omega)
  refine ⟨key, ?_⟩
  simp [placeComponentLabel, hc, key]

/-- C7 witness: with `R1` and `R2` on the scene the next resistor gets
suffix 3, i.e. label `R3` — also after `R2` was deleted and re-added,
since only the currently present suffixes `{1, 2}` enter the maximum. -/
theorem C7_witness :
    componentLabelSuffix "R" [⟨"R", some 1⟩, ⟨"R", some 2⟩] = 3 ∧
    (placeComponentLabel ⟨"R", none⟩
        [⟨"R", some 1⟩, ⟨"R", some 2⟩]).labelSuffix = some 3 :=
  C7_label_suffix "R" [⟨"R", some 1⟩, ⟨"R", some 2⟩] 2 ⟨"R", none⟩
    (by decide) (by decide) (by decide) rfl

/-! ## Claim C8 — align/distribute guards and the distribute scenario -/

/-- C8: `distributeElements` and `alignElements` return `false` and leave
the selected items and the undo journal completely unchanged whenever fewer
than two eligible selected items exist (the guard fires before any macro is
opened); with at least two items, distributing horizontally three items at
abscissae 0, 30, 90 moves them to 0, 45, 90 — evenly spaced between the
minimum and the maximum. -/
theorem C8_align_distribute :
    (∀ (o : Orientation) (items : List SItem) (log : List UndoEntry),
        items.length < 2 → distributeElements o items log = (false, items, log)) ∧
    (∀ (al : Alignment) (items : List SItem) (log : List UndoEntry),
        items.length < 2 → alignElements al items log = (false, items, log)) ∧
    (distributeElements .horizontal
        [⟨0, 0, 4, 4, false, [], 0⟩, ⟨30, 0, 4, 4, false, [], 0⟩,
         ⟨90, 0, 4, 4, false, [], 0⟩] []).2.1.map (·.x) = [0, 45, 90] := by
  refine ⟨?_, ?_, ?_⟩
  · intro o items log h
    unfold distributeElements
    rw [if_pos h]
  · intro al items log h
    unfold alignElements
    rw [if_pos h]
  · norm_num [distributeElements, distributeElementsHorizontally, sortBy,
      insertBy, distributeLoopX]

/-- C8 witness: the guards applied to a single selected item. -/
theorem C8_witness :
    distributeElements .horizontal [⟨7, 8, 4, 4, false, [], 0⟩] []
        = (false, [⟨7, 8, 4, 4, false, [], 0⟩], []) ∧
    alignElements .left [⟨7, 8, 4, 4, false, [], 0⟩] []
        = (false, [⟨7, 8, 4, 4, false, [], 0⟩], []) :=
  ⟨C8_align_distribute.1 _ _ _ (by decide),
   C8_align_distribute.2.1 _ _ _ (by decide)⟩

/-! ## Claim C9 — paste error handling -/

/-- C9, counterexample: a clipboard payload containing an item of unknown
kind does *not* abort the paste.  On `demoPaste` (component, unknown
element, component) the unknown element is skipped, reading stops at its
end tag, and the first component is still handed to the insertion state —
a partial paste rather than the claimed abort. -/
theorem C9_counterexample :
    paste demoPaste = some [.component] ∧ paste demoPaste ≠ none := by
  have h : paste demoPaste = some [.component] := rfl
  rw [h]
  exact ⟨rfl, by simp⟩

/-- C9 (amended): a payload without a `qucs` root element, or whose root
version fails `checkVersion`, aborts the paste entirely (`none`: nothing is
handed to insertion, and no path of `paste` touches the undo stack); a
payload with an item of unknown kind is *not* aborted — the unknown element
is skipped, reading stops at its end element, and the items read before it
are still handed to the insertion state. -/
theorem C9_paste_errors :
    (∀ evs, findQucs evs = none → paste evs = none) ∧
    (∀ evs v rest, findQucs evs = some (v, rest) → checkVersion v = false →
      paste evs = none) ∧
    paste demoPaste = some [.component] := by
  refine ⟨?_, ?_, rfl⟩
  · intro evs h
    unfold paste
    rw [h]
  · intro evs v rest h hv
    unfold paste
    rw [h]
    simp [hv]

/-- C9 witness: a payload whose root element is not `qucs` aborts, and one
with a rejected version aborts. -/
theorem C9_witness :
    paste [XmlEvent.start "foo" "", XmlEvent.endE] = none ∧
    paste [XmlEvent.start "qucs" "9.9", XmlEvent.endE] = none :=
  ⟨C9_paste_errors.1 _ rfl, C9_paste_errors.2.1 _ "9.9" [.endE] rfl rfl⟩

end Caneda
